import Mathlib

/-!
Shallow embedding of the concurrent crypto data-aggregation service
(`internal/services/crypto.go` and the request validation in
`internal/handlers/crypto.go`) of the `my-go-backend` repository.

Modelling conventions:
* Go `float64` prices are modelled as `ℚ` (exact arithmetic stands in for
  floating point; the aggregation code only adds prices).
* `time.Time` values are modelled as `Nat` seconds; `time.Since t < time.Minute`
  becomes `now - t < 60` (Go's negative durations and Nat truncated
  subtraction agree: both classify a future timestamp as fresh).
* Go maps (`cache`, `subscribers`) are modelled as functions into `Option`.
* The upstream HTTP call of `GetSingleCrypto` is modelled by an environment
  `source : String → SourceOutcome` giving, per coin id, either a transport
  error or a status code plus response body.
* Goroutine interleaving for the semaphore claims is modelled by an explicit
  small-step scheduler over per-task instruction lists (see `GateOp`).
-/

namespace CryptoService

/-- `models.CoinGeckoResponse` (`pkg/models/crypto.go`). -/
structure CoinGeckoResponse where
  id : String
  symbol : String
  name : String
  currentPrice : ℚ
  marketCap : Int
  marketCapRank : Int
  priceChange24h : ℚ
  priceChangePercent24h : ℚ
  lastUpdated : String
  deriving DecidableEq, Repr

/-- `models.CryptoData` (`pkg/models/crypto.go`); omitted fields of a Go
composite literal take the zero value, mirrored here by defaults. -/
structure CryptoData where
  id : String := ""
  symbol : String := ""
  name : String := ""
  price : ℚ := 0
  marketCap : Int := 0
  rank : Int := 0
  change24h : ℚ := 0
  changePercent : ℚ := 0
  fetchedAt : Nat := 0
  error : String := ""
  deriving DecidableEq, Repr

/-- `models.PortfolioResponse` (`pkg/models/crypto.go`). `fetchTime` is the
pre-formatted elapsed-time string (wall-clock formatting is not modelled). -/
structure PortfolioResponse where
  portfolio : List CryptoData
  totalValue : ℚ
  successCount : Nat
  errorCount : Nat
  fetchTime : String
  deriving DecidableEq, Repr

/-- Outcome of the one outbound HTTP call `GetSingleCrypto` makes:
either a transport error (`resty` returns `err != nil`) or a status code
together with the decoded response slice. -/
inductive SourceOutcome where
  | netError (msg : String)
  | response (status : Nat) (body : List CoinGeckoResponse)
  deriving DecidableEq, Repr

/-- The in-memory cache `map[string]models.CryptoData`. -/
def Cache : Type := String → Option CryptoData

/-- Result of one `GetSingleCrypto` call: the returned value or error, the
cache state after the call, and whether the upstream source was invoked. -/
structure FetchResult where
  result : Except String CryptoData
  cache : Cache
  sourceCalled : Bool

/-- The conversion of `response[0]` into `models.CryptoData`
(`crypto.go` lines 77-87). -/
def convertResponse (r : CoinGeckoResponse) (now : Nat) : CryptoData :=
  { id := r.id
    symbol := r.symbol
    name := r.name
    price := r.currentPrice
    marketCap := r.marketCap
    rank := r.marketCapRank
    change24h := r.priceChange24h
    changePercent := r.priceChangePercent24h
    fetchedAt := now
    error := "" }

/-- The API-call-plus-cache-write path of `GetSingleCrypto`
(`crypto.go` lines 54-94): transport error, non-200 status and empty body
each return an error without touching the cache; a successful response is
converted, written to the cache under `coinID`, and returned. -/
def fetchFromSource (source : String → SourceOutcome) (now : Nat)
    (cache : Cache) (coinID : String) : FetchResult :=
  match source coinID with
  | .netError msg =>
      ⟨.error ("API call failed: " ++ msg), cache, true⟩
  | .response status body =>
      if status ≠ 200 then
        ⟨.error ("API returned status " ++ toString status), cache, true⟩
      else
        match body with
        | [] => ⟨.error ("coin not found: " ++ coinID), cache, true⟩
        | r :: _ =>
            let crypto := convertResponse r now
            ⟨.ok crypto, fun x => if x = coinID then some crypto else cache x, true⟩

/-- `GetSingleCrypto` (`crypto.go` lines 41-95): return the cached entry when
it is present and younger than one minute; otherwise fall through to the
upstream source. -/
def getSingleCrypto (source : String → SourceOutcome) (now : Nat)
    (cache : Cache) (coinID : String) : FetchResult :=
  match cache coinID with
  | some cached =>
      if now - cached.fetchedAt < 60 then ⟨.ok cached, cache, false⟩
      else fetchFromSource source now cache coinID
  | none => fetchFromSource source now cache coinID

/-! ### Bulk fetch and aggregation (`GetBulkCrypto`, `GetPortfolioRealtime`)

The per-coin fetch inside `GetBulkCrypto` is abstracted by an environment
giving, per coin, the completion time of the inner `GetSingleCrypto` call and
its outcome; the shared cache lives inside that abstraction. The goroutines
append results in completion order; here records appear in input order, a
permutation-equivalent linearisation (none of the aggregation claims depend
on record order). -/

/-- Per-coin behaviour of the inner fetch goroutine of `GetBulkCrypto`. -/
structure BulkEnv where
  fetchTime : String → Nat
  fetchResult : String → Except String CryptoData

/-- One outer goroutine of `GetBulkCrypto` (`crypto.go` lines 115-151): the
`select` takes the `done` branch when the inner fetch completes by the
deadline (error results become placeholder records carrying the error text),
and the `ctx.Done()` branch — a placeholder record with error `"timeout"` —
when it does not. -/
def taskRecord (env : BulkEnv) (deadline now : Nat) (coin : String) : CryptoData :=
  if env.fetchTime coin ≤ deadline then
    match env.fetchResult coin with
    | .ok crypto => crypto
    | .error e => { id := coin, error := e, fetchedAt := now }
  else
    { id := coin, error := "timeout", fetchedAt := now }

/-- One step of the result-collection loop shared by `GetBulkCrypto`
(lines 171-182) and `GetPortfolioRealtime` (lines 244-253). -/
def collectStep (acc : PortfolioResponse) (r : CryptoData) : PortfolioResponse :=
  { acc with
    portfolio := acc.portfolio ++ [r]
    totalValue := if r.error = "" then acc.totalValue + r.price else acc.totalValue
    successCount := if r.error = "" then acc.successCount + 1 else acc.successCount
    errorCount := if r.error = "" then acc.errorCount else acc.errorCount + 1 }

/-- The result-collection loop: drain the results channel, appending each
record and updating the running totals. -/
def collectResults (elapsedStr : String) (records : List CryptoData) :
    PortfolioResponse :=
  records.foldl collectStep
    { portfolio := [], totalValue := 0, successCount := 0, errorCount := 0,
      fetchTime := elapsedStr }

/-- `GetBulkCrypto` (`crypto.go` lines 98-191): one task per coin, a shared
deadline, results aggregated by the collection loop. The function always
returns a `nil` Go error, so no `Except` layer is needed. -/
def getBulkCrypto (env : BulkEnv) (deadline now : Nat) (elapsedStr : String)
    (coins : List String) : PortfolioResponse :=
  collectResults elapsedStr (coins.map (taskRecord env deadline now))

/-- One worker goroutine of `GetPortfolioRealtime` (`crypto.go` lines
208-228): no deadline; an error becomes a placeholder record. -/
def realtimeRecord (env : BulkEnv) (now : Nat) (coin : String) : CryptoData :=
  match env.fetchResult coin with
  | .ok crypto => crypto
  | .error e => { id := coin, error := e, fetchedAt := now }

/-- `GetPortfolioRealtime` (`crypto.go` lines 194-262). -/
def getPortfolioRealtime (env : BulkEnv) (now : Nat) (elapsedStr : String)
    (coins : List String) : PortfolioResponse :=
  collectResults elapsedStr (coins.map (realtimeRecord env now))

/-- The bulk-request validation of the handler layer
(`internal/handlers/crypto.go` lines 76-90): an empty coin list and a list of
more than 20 coins are rejected with a message before the service is called. -/
def bulkRequestRejection (coins : List String) : Option String :=
  if coins.length = 0 then some "At least one coin is required"
  else if coins.length > 20 then some "Maximum 20 coins allowed"
  else none

/-- The handler's timeout resolution (`internal/handlers/crypto.go` lines
93-96): a non-positive requested timeout falls back to the 15-second default. -/
def resolveTimeout (reqTimeout : Int) : Int :=
  if reqTimeout > 0 then reqTimeout else 15

/-! ### Interleaving model for the admission gate

Each goroutine of a bulk operation is abstracted to the sequence of
gate-relevant instructions it executes. A worker of `GetPortfolioRealtime`
(lines 208-228) acquires the semaphore, performs the fetch, and releases the
slot by `defer` — unconditionally, on the error path too. A task of
`GetBulkCrypto` (lines 115-151) performs its fetch with no gate instructions
at all. A scheduler step picks a task and runs its next instruction when it
is enabled; `acquire` is enabled only while fewer than `limit` slots are
held. `inFlight` marks a task between `callStart` and `callEnd`, i.e. with
its `GetSingleCrypto` call in flight. -/

/-- Gate-relevant instructions of one goroutine. -/
inductive GateOp where
  | acquire
  | callStart
  | callEnd
  | release
  deriving DecidableEq, Repr

/-- A task: the instructions already executed and those remaining. -/
structure TaskSt where
  done : List GateOp
  rem : List GateOp
  deriving DecidableEq, Repr

/-- Instruction sequence of one `GetPortfolioRealtime` worker
(`crypto.go` lines 208-228): `semaphore <- struct{}{}`, the fetch, and the
deferred `<-semaphore`. -/
def realtimeProg : List GateOp := [.acquire, .callStart, .callEnd, .release]

/-- Instruction sequence of one `GetBulkCrypto` task (`crypto.go` lines
115-151): only the fetch — no semaphore exists in this function. -/
def bulkProg : List GateOp := [.callStart, .callEnd]

/-- A task holds a semaphore slot after `acquire` and before `release`. -/
def holdsSlot (t : TaskSt) : Bool :=
  decide (GateOp.acquire ∈ t.done ∧ GateOp.release ∉ t.done)

/-- A task's fetch is in flight after `callStart` and before `callEnd`. -/
def inFlight (t : TaskSt) : Bool :=
  decide (GateOp.callStart ∈ t.done ∧ GateOp.callEnd ∉ t.done)

/-- Number of semaphore slots currently held. -/
def semCount (ts : List TaskSt) : Nat := ts.countP holdsSlot

/-- Number of fetches currently in flight. -/
def inFlightCount (ts : List TaskSt) : Nat := ts.countP inFlight

/-- Run the next instruction of task `t`, unless it is a disabled `acquire`
(the semaphore channel send blocks while `limit` slots are held). -/
def stepTask (limit : Nat) (ts : List TaskSt) (t : TaskSt) : TaskSt :=
  match t.rem with
  | [] => t
  | op :: rest =>
      if op = GateOp.acquire ∧ limit ≤ semCount ts then t
      else ⟨t.done ++ [op], rest⟩

/-- Scheduler step: pick task `i` and run its next enabled instruction. -/
def step (limit : Nat) (ts : List TaskSt) (i : Nat) : List TaskSt :=
  match ts[i]? with
  | none => ts
  | some t => ts.set i (stepTask limit ts t)

/-- Run a schedule (a list of task picks). -/
def run (limit : Nat) (ts : List TaskSt) : List Nat → List TaskSt
  | [] => ts
  | i :: sched => run limit (step limit ts i) sched

/-- Initial task pool: `n` tasks, none started, all running program `prog`. -/
def initTasks (prog : List GateOp) (n : Nat) : List TaskSt :=
  List.replicate n ⟨[], prog⟩

/-! ### Streaming updates and the broadcast hub -/

/-- `models.PriceUpdate` (`pkg/models/crypto.go`). -/
structure PriceUpdate where
  coinID : String
  symbol : String
  price : ℚ
  change24h : ℚ
  timestamp : Nat
  updateType : String
  deriving DecidableEq, Repr

/-- `models.StreamEvent` (`pkg/models/crypto.go`); the `data` payload is a
price update for the streaming paths modelled here. -/
structure StreamEvent where
  type : String
  data : PriceUpdate
  timestamp : Nat
  id : String
  deriving DecidableEq, Repr

/-- The update built from a fetched record in `streamPriceUpdates`
(`crypto.go` lines 340-351): the simulated fluctuation `priceChange` scales
the price; every other field is copied from the cached record. -/
def mkUpdate (crypto : CryptoData) (priceChange : ℚ) (now : Nat) : PriceUpdate :=
  { coinID := crypto.id
    symbol := crypto.symbol
    price := crypto.price * (1 + priceChange)
    change24h := crypto.change24h
    timestamp := now
    updateType := "price" }

/-- One tick of the helper `streamPriceUpdates` (`crypto.go` lines 324-378):
fetch each coin through `getSingleCrypto` (threading the shared cache — a
linearisation of the concurrent goroutines), skip failed fetches, and build
one update per fetched record with a per-coin jitter draw. Returns the
updates and the cache left behind by the fetches. -/
def streamTick (source : String → SourceOutcome) (now : Nat)
    (jitter : String → ℚ) : Cache → List String → List PriceUpdate × Cache
  | cache, [] => ([], cache)
  | cache, coin :: rest =>
      let r := getSingleCrypto source now cache coin
      let tail := streamTick source now jitter r.cache rest
      match r.result with
      | .error _ => tail
      | .ok crypto => (mkUpdate crypto (jitter coin) now :: tail.1, tail.2)

/-- The successful fetches of one tick, with the coin each record answers,
and the final cache: `streamTick` without the jitter and event building. -/
def fetchedRecords (source : String → SourceOutcome) (now : Nat) :
    Cache → List String → List (String × CryptoData) × Cache
  | cache, [] => ([], cache)
  | cache, coin :: rest =>
      let r := getSingleCrypto source now cache coin
      let tail := fetchedRecords source now r.cache rest
      match r.result with
      | .error _ => tail
      | .ok crypto => ((coin, crypto) :: tail.1, tail.2)

/-- Capacity of the streaming event channel
(`make(chan models.StreamEvent, 100)` in `StreamPriceUpdates`, line 292). -/
def eventChanCap : Nat := 100

/-- One `"price_update"` event per update, ids drawn position-indexed from
the generator `uuid` (`uuid.New()` abstracted); used to state what the send
loop emits in the case where no event is dropped. -/
def wrapEvents (uuid : Nat → String) (now k : Nat) :
    List PriceUpdate → List StreamEvent
  | [] => []
  | u :: rest =>
      { type := "price_update", data := u, timestamp := now, id := uuid k } ::
        wrapEvents uuid now (k + 1) rest

/-- The send loop of `streamPriceUpdates` (`crypto.go` lines 364-377): each
update is wrapped in a `"price_update"` event and offered to the bounded
event channel by a `select`; when the channel is full, the 100ms
`time.After` branch fires and the event is dropped. `queue` is the channel
content; the id counter advances whether or not the event is kept. -/
def sendEvents (uuid : Nat → String) (now : Nat) :
    Nat → List StreamEvent → List PriceUpdate → List StreamEvent
  | _, queue, [] => queue
  | k, queue, u :: rest =>
      if queue.length < eventChanCap then
        sendEvents uuid now (k + 1)
          (queue ++
            [{ type := "price_update", data := u, timestamp := now,
               id := uuid k }]) rest
      else
        sendEvents uuid now (k + 1) queue rest

/-- The WebSocket subscriber registry `map[string]chan models.StreamEvent`;
each subscriber's channel is modelled as its queued-event list. -/
def Subscribers : Type := String → Option (List StreamEvent)

/-- Capacity of a subscriber channel (`make(chan models.StreamEvent, 100)`). -/
def subscriberCap : Nat := 100

/-- `AddSubscriber` (`crypto.go` lines 381-390): registers a fresh empty
queue under `id`, overwriting any existing entry. -/
def addSubscriber (subs : Subscribers) (id : String) : Subscribers :=
  fun x => if x = id then some [] else subs x

/-- `RemoveSubscriber` (`crypto.go` lines 392-401): closes and removes the
queue of `id` when present; a no-op otherwise. -/
def removeSubscriber (subs : Subscribers) (id : String) : Subscribers :=
  fun x => if x = id then none else subs x

/-- `BroadcastToSubscribers` (`crypto.go` lines 404-415): per registered
subscriber, enqueue the event when the channel has space; when it is full the
100ms wait elapses and the event is dropped for that subscriber only. -/
def broadcastToSubscribers (subs : Subscribers) (event : StreamEvent) :
    Subscribers :=
  fun x =>
    match subs x with
    | none => none
    | some q => some (if q.length < subscriberCap then q ++ [event] else q)

/-! ### Lemmas about the result-collection loop -/

lemma foldl_collectStep_portfolio (records : List CryptoData) :
    ∀ acc : PortfolioResponse,
      (records.foldl collectStep acc).portfolio = acc.portfolio ++ records := by
  induction records with
  | nil => intro acc; simp
  | cons r rest ih => intro acc; simp [collectStep, ih]

lemma foldl_collectStep_totalValue (records : List CryptoData) :
    ∀ acc : PortfolioResponse,
      (records.foldl collectStep acc).totalValue
        = acc.totalValue
          + ((records.filter fun r => r.error = "").map CryptoData.price).sum := by
  induction records with
  | nil => intro acc; simp
  | cons r rest ih =>
      intro acc
      by_cases h : r.error = "" <;> simp [collectStep, ih, h, add_assoc]

lemma foldl_collectStep_successCount (records : List CryptoData) :
    ∀ acc : PortfolioResponse,
      (records.foldl collectStep acc).successCount
        = acc.successCount + records.countP fun r => r.error = "" := by
  induction records with
  | nil => intro acc; simp
  | cons r rest ih =>
      intro acc
      by_cases h : r.error = "" <;>
        (simp [collectStep, ih, h, List.countP_cons]; try omega)

lemma foldl_collectStep_errorCount (records : List CryptoData) :
    ∀ acc : PortfolioResponse,
      (records.foldl collectStep acc).errorCount
        = acc.errorCount + records.countP fun r => ¬r.error = "" := by
  induction records with
  | nil => intro acc; simp
  | cons r rest ih =>
      intro acc
      by_cases h : r.error = "" <;>
        (simp [collectStep, ih, h, List.countP_cons]; try omega)

lemma collectResults_portfolio (es : String) (records : List CryptoData) :
    (collectResults es records).portfolio = records := by
  simp [collectResults, foldl_collectStep_portfolio]

lemma collectResults_totalValue (es : String) (records : List CryptoData) :
    (collectResults es records).totalValue
      = ((records.filter fun r => r.error = "").map CryptoData.price).sum := by
  simp [collectResults, foldl_collectStep_totalValue]

lemma collectResults_successCount (es : String) (records : List CryptoData) :
    (collectResults es records).successCount
      = records.countP fun r => r.error = "" := by
  simp [collectResults, foldl_collectStep_successCount]

lemma collectResults_errorCount (es : String) (records : List CryptoData) :
    (collectResults es records).errorCount
      = records.countP fun r => ¬r.error = "" := by
  simp [collectResults, foldl_collectStep_errorCount]

/-! ### Aggregation claims -/

/-- C3: in every report produced by `GetBulkCrypto` or `GetPortfolioRealtime`,
`totalValue` is the sum of `price` over exactly the records with empty
`error`, `successCount` counts the records with empty `error`, and
`errorCount` counts the records with non-empty `error`. -/
theorem bulk_and_realtime_aggregation (env : BulkEnv) (deadline now : Nat)
    (es : String) (coins : List String) :
    ((getBulkCrypto env deadline now es coins).totalValue
        = (((getBulkCrypto env deadline now es coins).portfolio.filter
              fun r => r.error = "").map CryptoData.price).sum
      ∧ (getBulkCrypto env deadline now es coins).successCount
        = (getBulkCrypto env deadline now es coins).portfolio.countP
            (fun r => r.error = "")
      ∧ (getBulkCrypto env deadline now es coins).errorCount
        = (getBulkCrypto env deadline now es coins).portfolio.countP
            fun r => ¬r.error = "")
    ∧ ((getPortfolioRealtime env now es coins).totalValue
        = (((getPortfolioRealtime env now es coins).portfolio.filter
              fun r => r.error = "").map CryptoData.price).sum
      ∧ (getPortfolioRealtime env now es coins).successCount
        = (getPortfolioRealtime env now es coins).portfolio.countP
            (fun r => r.error = "")
      ∧ (getPortfolioRealtime env now es coins).errorCount
        = (getPortfolioRealtime env now es coins).portfolio.countP
            fun r => ¬r.error = "") := by
  refine ⟨⟨?_, ?_, ?_⟩, ⟨?_, ?_, ?_⟩⟩ <;>
    simp [getBulkCrypto, getPortfolioRealtime, collectResults_portfolio,
      collectResults_totalValue, collectResults_successCount,
      collectResults_errorCount]

/-- C8: `GetBulkCrypto` on an empty coin list returns the empty report with
zero totals and no error (the function has no error path at all), while the
handler layer independently rejects an empty coin list as invalid input
before the service is reached. -/
theorem getBulkCrypto_empty (env : BulkEnv) (deadline now : Nat) (es : String) :
    getBulkCrypto env deadline now es []
        = { portfolio := [], totalValue := 0, successCount := 0,
            errorCount := 0, fetchTime := es }
      ∧ bulkRequestRejection [] = some "At least one coin is required" := by
  exact ⟨rfl, rfl⟩

/-- C10: the report of `GetBulkCrypto` holds exactly one record per input
symbol — so `successCount + errorCount` equals the number of input symbols. -/
theorem getBulkCrypto_record_count (env : BulkEnv) (deadline now : Nat)
    (es : String) (coins : List String) :
    (getBulkCrypto env deadline now es coins).portfolio.length = coins.length
      ∧ (getBulkCrypto env deadline now es coins).successCount
          + (getBulkCrypto env deadline now es coins).errorCount
        = coins.length := by
  constructor
  · simp [getBulkCrypto, collectResults_portfolio]
  · rw [getBulkCrypto, collectResults_successCount, collectResults_errorCount]
    have hcongr :
        List.countP (fun r : CryptoData => decide (¬r.error = ""))
            (coins.map (taskRecord env deadline now))
          = List.countP (fun r : CryptoData => ¬(decide (r.error = "")))
              (coins.map (taskRecord env deadline now)) :=
      List.countP_congr fun x _ => by simp
    rw [hcongr,
      ← List.length_eq_countP_add_countP (fun r : CryptoData => r.error = "")]
    simp

/-- C2: a symbol whose inner fetch is not finished when the deadline expires
contributes a failure record with error exactly `"timeout"`, the report still
holds a record for every symbol (the unfinished task does not block the
return), and the handler's default deadline is 15 seconds. -/
theorem getBulkCrypto_timeout (env : BulkEnv) (deadline now : Nat)
    (es : String) (coins : List String) (coin : String)
    (hmem : coin ∈ coins) (hlate : deadline < env.fetchTime coin) :
    (∃ r ∈ (getBulkCrypto env deadline now es coins).portfolio,
        r.id = coin ∧ r.error = "timeout")
      ∧ (getBulkCrypto env deadline now es coins).portfolio.length
          = coins.length
      ∧ resolveTimeout 0 = 15 := by
  refine ⟨?_, ?_, rfl⟩
  · refine ⟨taskRecord env deadline now coin, ?_, ?_⟩
    · rw [getBulkCrypto, collectResults_portfolio]
      exact List.mem_map_of_mem _ hmem
    · simp [taskRecord, Nat.not_le.mpr hlate]
  · simp [getBulkCrypto, collectResults_portfolio]

/-- Witness for C2 at a concrete input: one coin whose fetch takes 20s
against a 15s deadline. -/
theorem getBulkCrypto_timeout_witness :
    ("bitcoin" ∈ ["bitcoin"] ∧ (15 : Nat) < 20)
      ∧ ((∃ r ∈ (getBulkCrypto ⟨fun _ => 20, fun _ => .error "x"⟩ 15 0 "0.00s"
              ["bitcoin"]).portfolio, r.id = "bitcoin" ∧ r.error = "timeout")
        ∧ (getBulkCrypto ⟨fun _ => 20, fun _ => .error "x"⟩ 15 0 "0.00s"
              ["bitcoin"]).portfolio.length = ["bitcoin"].length
        ∧ resolveTimeout 0 = 15) :=
  ⟨⟨by simp, by norm_num⟩,
    getBulkCrypto_timeout ⟨fun _ => 20, fun _ => .error "x"⟩ 15 0 "0.00s"
      ["bitcoin"] "bitcoin" (by simp) (by norm_num)⟩


/-! ### Cache claims (`GetSingleCrypto`) -/

/-- Every path of the upstream-call helper reports `sourceCalled = true`. -/
lemma fetchFromSource_sourceCalled (source : String → SourceOutcome)
    (now : Nat) (cache : Cache) (coinID : String) :
    (fetchFromSource source now cache coinID).sourceCalled = true := by
  unfold fetchFromSource
  cases source coinID with
  | netError msg => rfl
  | response status body =>
      by_cases hs : status ≠ 200 <;> cases body <;> simp [hs]

/-- C4: a cache entry younger than 60 seconds is returned as-is without
calling the upstream source; an absent or stale (age ≥ 60s) entry is never
returned from the cache and the upstream source is called. -/
theorem getSingleCrypto_cache (source : String → SourceOutcome) (now : Nat)
    (cache : Cache) (coinID : String) :
    (∀ cached, cache coinID = some cached → now - cached.fetchedAt < 60 →
        getSingleCrypto source now cache coinID
          = ⟨.ok cached, cache, false⟩)
      ∧ (cache coinID = none →
          (getSingleCrypto source now cache coinID).sourceCalled = true)
      ∧ (∀ cached, cache coinID = some cached → 60 ≤ now - cached.fetchedAt →
          (getSingleCrypto source now cache coinID).sourceCalled = true) := by
  refine ⟨?_, ?_, ?_⟩
  · intro cached hsome hfresh
    simp [getSingleCrypto, hsome, hfresh]
  · intro hnone
    simp only [getSingleCrypto, hnone]
    exact fetchFromSource_sourceCalled source now cache coinID
  · intro cached hsome hstale
    simp only [getSingleCrypto, hsome, Nat.not_lt.mpr hstale, if_false]
    exact fetchFromSource_sourceCalled source now cache coinID

/-- A concrete cache for the witnesses: one entry fetched at second 100. -/
def witnessCache : Cache :=
  fun x => if x = "btc" then some { id := "btc", fetchedAt := 100 } else none

/-- A source that always fails at the transport level. -/
def downSource : String → SourceOutcome := fun _ => .netError "down"

/-- Witness for C4 at concrete inputs: a 30-second-old entry is served from
the cache with no source call; a missing key and a 61-second-old entry both
invoke the source. -/
theorem getSingleCrypto_cache_witness :
    (witnessCache "btc" = some { id := "btc", fetchedAt := 100 }
      ∧ (130 : Nat) - 100 < 60
      ∧ getSingleCrypto downSource 130 witnessCache "btc"
          = ⟨.ok { id := "btc", fetchedAt := 100 }, witnessCache, false⟩)
    ∧ (witnessCache "eth" = none
      ∧ (getSingleCrypto downSource 130 witnessCache "eth").sourceCalled = true)
    ∧ (60 ≤ (161 : Nat) - 100
      ∧ (getSingleCrypto downSource 161 witnessCache "btc").sourceCalled
          = true) :=
  ⟨⟨by simp [witnessCache], by norm_num,
      (getSingleCrypto_cache downSource 130 witnessCache "btc").1
        { id := "btc", fetchedAt := 100 } (by simp [witnessCache])
        (by norm_num)⟩,
    ⟨by simp [witnessCache],
      (getSingleCrypto_cache downSource 130 witnessCache "eth").2.1
        (by simp [witnessCache])⟩,
    ⟨by norm_num,
      (getSingleCrypto_cache downSource 161 witnessCache "btc").2.2
        { id := "btc", fetchedAt := 100 } (by simp [witnessCache])
        (by norm_num)⟩⟩

/-- C5: `GetSingleCrypto` writes the cache only on a successful upstream
fetch: every error outcome (transport failure, non-200 status, empty body)
leaves the cache exactly as it was, a successful fetch writes the fetched
record under the symbol key, and a pure cache hit writes nothing. -/
theorem getSingleCrypto_cache_write (source : String → SourceOutcome)
    (now : Nat) (cache : Cache) (coinID : String) :
    (∀ e, (getSingleCrypto source now cache coinID).result = .error e →
        (getSingleCrypto source now cache coinID).cache = cache)
      ∧ (∀ c, (getSingleCrypto source now cache coinID).sourceCalled = true →
          (getSingleCrypto source now cache coinID).result = .ok c →
          (getSingleCrypto source now cache coinID).cache
            = fun x => if x = coinID then some c else cache x)
      ∧ ((getSingleCrypto source now cache coinID).sourceCalled = false →
          (getSingleCrypto source now cache coinID).cache = cache) := by
  have hsrc :
      (∀ e, (fetchFromSource source now cache coinID).result = .error e →
          (fetchFromSource source now cache coinID).cache = cache)
        ∧ ∀ c, (fetchFromSource source now cache coinID).result = .ok c →
            (fetchFromSource source now cache coinID).cache
              = fun x => if x = coinID then some c else cache x := by
    unfold fetchFromSource
    cases source coinID with
    | netError msg => exact ⟨fun e _ => rfl, fun c hc => by simp_all⟩
    | response status body =>
        by_cases hs : status ≠ 200 <;> cases body <;> simp_all
  have hcalled := fetchFromSource_sourceCalled source now cache coinID
  unfold getSingleCrypto
  cases hc : cache coinID with
  | none =>
      refine ⟨hsrc.1, fun c _ => hsrc.2 c, fun hfalse => ?_⟩
      rw [hcalled] at hfalse
      exact absurd hfalse (by simp)
  | some cached =>
      by_cases hfresh : now - cached.fetchedAt < 60
      · refine ⟨?_, ?_, ?_⟩ <;> simp [hfresh]
      · simp only [hfresh, if_false]
        refine ⟨hsrc.1, fun c _ => hsrc.2 c, fun hfalse => ?_⟩
        rw [hcalled] at hfalse
        exact absurd hfalse (by simp)

/-- The upstream response used by the C5 witness. -/
def witnessResponse : CoinGeckoResponse :=
  { id := "bitcoin", symbol := "btc", name := "Bitcoin",
    currentPrice := 50000, marketCap := 1, marketCapRank := 1,
    priceChange24h := 0, priceChangePercent24h := 0, lastUpdated := "" }

/-- A source that always answers 200 with `witnessResponse`. -/
def okSource : String → SourceOutcome := fun _ => .response 200 [witnessResponse]

/-- Witness for C5 at concrete inputs: a transport failure leaves the empty
cache empty, and a successful fetch writes the converted record under its
key. -/
theorem getSingleCrypto_cache_write_witness :
    ((getSingleCrypto downSource 0 (fun _ => none) "btc").result
          = .error "API call failed: down"
      ∧ (getSingleCrypto downSource 0 (fun _ => none) "btc").cache
          = fun _ => none)
    ∧ ((getSingleCrypto okSource 0 (fun _ => none) "bitcoin").sourceCalled
          = true
      ∧ (getSingleCrypto okSource 0 (fun _ => none) "bitcoin").result
          = .ok (convertResponse witnessResponse 0)
      ∧ (getSingleCrypto okSource 0 (fun _ => none) "bitcoin").cache
          = fun x => if x = "bitcoin"
              then some (convertResponse witnessResponse 0) else none) :=
  ⟨⟨rfl,
      (getSingleCrypto_cache_write downSource 0 (fun _ => none) "btc").1
        "API call failed: down" rfl⟩,
    ⟨rfl, rfl,
      (getSingleCrypto_cache_write okSource 0 (fun _ => none) "bitcoin").2.1
        (convertResponse witnessResponse 0) rfl rfl⟩⟩



/-! ### Broadcast hub claims -/

/-- C6: a broadcast reaches every registered queue with space, waits out the
100ms grace and drops the event only for the saturated queues, and leaves
unregistered ids unregistered — so one saturated subscriber never affects
delivery to the others. -/
theorem broadcastToSubscribers_delivery (subs : Subscribers)
    (event : StreamEvent) :
    (∀ id q, subs id = some q → q.length < subscriberCap →
        broadcastToSubscribers subs event id = some (q ++ [event]))
      ∧ (∀ id q, subs id = some q → subscriberCap ≤ q.length →
          broadcastToSubscribers subs event id = some q)
      ∧ ∀ id, subs id = none → broadcastToSubscribers subs event id = none := by
  refine ⟨?_, ?_, ?_⟩
  · intro id q h hlt
    simp [broadcastToSubscribers, h, hlt]
  · intro id q h hfull
    simp [broadcastToSubscribers, h, Nat.not_lt.mpr hfull]
  · intro id h
    simp [broadcastToSubscribers, h]

/-- A fixed event for the hub witnesses. -/
def witnessEvent : StreamEvent :=
  { type := "price_update",
    data := { coinID := "bitcoin", symbol := "btc", price := 50000,
              change24h := 0, timestamp := 0, updateType := "price" },
    timestamp := 0, id := "e1" }

/-- A registry with one empty queue and one saturated queue. -/
def witnessSubs : Subscribers :=
  fun x =>
    if x = "a" then some []
    else if x = "b" then some (List.replicate 100 witnessEvent)
    else none

/-- Witness for C6: with subscriber "b" saturated, "a" still receives the
event, "b" drops it, and the unregistered "c" stays unregistered. -/
theorem broadcastToSubscribers_delivery_witness :
    (witnessSubs "a" = some [] ∧ ([] : List StreamEvent).length < subscriberCap
      ∧ broadcastToSubscribers witnessSubs witnessEvent "a"
          = some ([] ++ [witnessEvent]))
    ∧ (witnessSubs "b" = some (List.replicate 100 witnessEvent)
      ∧ subscriberCap ≤ (List.replicate 100 witnessEvent).length
      ∧ broadcastToSubscribers witnessSubs witnessEvent "b"
          = some (List.replicate 100 witnessEvent))
    ∧ (witnessSubs "c" = none
      ∧ broadcastToSubscribers witnessSubs witnessEvent "c" = none) :=
  ⟨⟨by simp [witnessSubs], by simp [subscriberCap],
      (broadcastToSubscribers_delivery witnessSubs witnessEvent).1 "a" []
        (by simp [witnessSubs]) (by simp [subscriberCap])⟩,
    ⟨by simp [witnessSubs], by simp [subscriberCap],
      (broadcastToSubscribers_delivery witnessSubs witnessEvent).2.1 "b"
        (List.replicate 100 witnessEvent) (by simp [witnessSubs])
        (by simp [subscriberCap])⟩,
    ⟨by simp [witnessSubs],
      (broadcastToSubscribers_delivery witnessSubs witnessEvent).2.2 "c"
        (by simp [witnessSubs])⟩⟩

/-- C7: after `RemoveSubscriber id` a broadcast delivers nothing to `id`; a
subsequent `AddSubscriber id` registers a fresh empty queue; adding an
already-active id overwrites its entry with a fresh empty queue (the old
queue is orphaned) while every other id's entry is untouched. -/
theorem subscriber_lifecycle (subs : Subscribers) (id : String)
    (event : StreamEvent) :
    broadcastToSubscribers (removeSubscriber subs id) event id = none
      ∧ addSubscriber (removeSubscriber subs id) id id = some []
      ∧ addSubscriber subs id id = some []
      ∧ ∀ x, x ≠ id → addSubscriber subs id x = subs x := by
  refine ⟨?_, ?_, ?_, ?_⟩
  · simp [broadcastToSubscribers, removeSubscriber]
  · simp [addSubscriber]
  · simp [addSubscriber]
  · intro x hx
    simp [addSubscriber, hx]

/-- Witness for C7 at a concrete registry: removing "a" silences its
deliveries, re-adding it yields an empty queue, re-adding the active "b"
overwrites with an empty queue, and "b"'s neighbour entry is untouched by
an add under "a". -/
theorem subscriber_lifecycle_witness :
    (broadcastToSubscribers (removeSubscriber witnessSubs "a") witnessEvent "a"
        = none
      ∧ addSubscriber (removeSubscriber witnessSubs "a") "a" "a" = some []
      ∧ addSubscriber witnessSubs "a" "a" = some []
      ∧ ("b" ≠ "a" ∧ addSubscriber witnessSubs "a" "b" = witnessSubs "b"))
    ∧ addSubscriber witnessSubs "b" "b" = some [] :=
  ⟨⟨(subscriber_lifecycle witnessSubs "a" witnessEvent).1,
    (subscriber_lifecycle witnessSubs "a" witnessEvent).2.1,
    (subscriber_lifecycle witnessSubs "a" witnessEvent).2.2.1,
    ⟨by simp, (subscriber_lifecycle witnessSubs "a" witnessEvent).2.2.2 "b"
        (by simp)⟩⟩,
    (subscriber_lifecycle witnessSubs "b" witnessEvent).2.2.1⟩


/-! ### Streaming tick claim -/

/-- The unconditionally-wrapped events carry the updates verbatim, one
`"price_update"` event per update. -/
lemma wrapEvents_data (uuid : Nat → String) (now : Nat) :
    ∀ (us : List PriceUpdate) (k : Nat),
      (wrapEvents uuid now k us).map StreamEvent.data = us
        ∧ ∀ e ∈ wrapEvents uuid now k us, e.type = "price_update" := by
  intro us
  induction us with
  | nil => intro k; simp [wrapEvents]
  | cons u rest ih =>
      intro k
      refine ⟨?_, ?_⟩
      · simp [wrapEvents, (ih (k + 1)).1]
      · intro e he
        rw [wrapEvents, List.mem_cons] at he
        rcases he with rfl | he
        · rfl
        · exact (ih (k + 1)).2 e he

/-- When the channel has room for every update, no send hits the 100ms
fallback: the loop appends exactly one event per update. -/
lemma sendEvents_of_room (uuid : Nat → String) (now : Nat) :
    ∀ (us : List PriceUpdate) (k : Nat) (queue : List StreamEvent),
      queue.length + us.length ≤ eventChanCap →
      sendEvents uuid now k queue us = queue ++ wrapEvents uuid now k us := by
  intro us
  induction us with
  | nil => intro k queue h; simp [sendEvents, wrapEvents]
  | cons u rest ih =>
      intro k queue h
      rw [List.length_cons] at h
      have hlt : queue.length < eventChanCap := by omega
      simp only [sendEvents, wrapEvents]
      rw [if_pos hlt, ih (k + 1) _ (by simp; omega)]
      simp

/-- A full channel drops every update, leaving the channel unchanged. -/
lemma sendEvents_full (uuid : Nat → String) (now : Nat) :
    ∀ (us : List PriceUpdate) (k : Nat) (queue : List StreamEvent),
      eventChanCap ≤ queue.length →
      sendEvents uuid now k queue us = queue := by
  intro us
  induction us with
  | nil => intro k queue _; rfl
  | cons u rest ih =>
      intro k queue h
      simp only [sendEvents]
      rw [if_neg (Nat.not_lt.mpr h)]
      exact ih (k + 1) queue h

/-- A saturated event channel: 100 queued events. -/
def fullEventQueue : List StreamEvent := List.replicate 100 witnessEvent

/-- A fixed id generator for the concrete streaming inputs. -/
def tickUuid : Nat → String := fun _ => "e1"

/-- C9 counterexample: a tick over `["bitcoin"]` against a healthy source
fetches exactly one record, yet with the event channel already holding 100
events the send loop emits nothing for it — the 100ms fallback
(`crypto.go` lines 372-376) drops the event, so a tick does not emit one
`StreamEvent` per fetched record. -/
theorem streamTick_full_channel_counterexample :
    (streamTick okSource 0 (fun _ => 0) (fun _ => none) ["bitcoin"]).1.length
        = 1
      ∧ sendEvents tickUuid 0 0 fullEventQueue
          (streamTick okSource 0 (fun _ => 0) (fun _ => none) ["bitcoin"]).1
        = fullEventQueue
      ∧ ¬ ∀ queue : List StreamEvent,
          (sendEvents tickUuid 0 0 queue
            (streamTick okSource 0 (fun _ => 0) (fun _ => none)
              ["bitcoin"]).1).length
            = queue.length
              + (streamTick okSource 0 (fun _ => 0) (fun _ => none)
                  ["bitcoin"]).1.length := by
  have hfull : eventChanCap ≤ fullEventQueue.length := by
    simp [fullEventQueue, eventChanCap]
  have hlen :
      (streamTick okSource 0 (fun _ => 0) (fun _ => none)
        ["bitcoin"]).1.length = 1 := rfl
  have hdrop := sendEvents_full tickUuid 0
    (streamTick okSource 0 (fun _ => 0) (fun _ => none) ["bitcoin"]).1 0
    fullEventQueue hfull
  refine ⟨hlen, hdrop, fun h => ?_⟩
  have h1 := h fullEventQueue
  rw [hdrop, hlen] at h1
  omega

/-- C9 (amended): one streaming tick builds the updates of exactly the
fetched records (one per successful fetch); the jitter draw scales only the
`price` field — `coinID`, `symbol`, `change24h` and `updateType` are copied
from the cached record — and the cache left behind is independent of the
jitter. The send loop offers one `"price_update"` event per update to the
bounded event channel (capacity 100): when the channel has room for all of
them, exactly one event per fetched record is emitted; an update that finds
the channel full is dropped after the 100ms wait, leaving the channel
unchanged. -/
theorem streamTick_emission (source : String → SourceOutcome) (now : Nat)
    (jitter : String → ℚ) (cache : Cache) (coins : List String) :
    ((streamTick source now jitter cache coins).1
        = (fetchedRecords source now cache coins).1.map
            fun p => mkUpdate p.2 (jitter p.1) now)
      ∧ (streamTick source now jitter cache coins).2
          = (fetchedRecords source now cache coins).2
      ∧ (∀ c q t, (mkUpdate c q t).coinID = c.id
          ∧ (mkUpdate c q t).symbol = c.symbol
          ∧ (mkUpdate c q t).change24h = c.change24h
          ∧ (mkUpdate c q t).updateType = "price"
          ∧ (mkUpdate c q t).price = c.price * (1 + q))
      ∧ (∀ (uuid : Nat → String) (k : Nat) (queue : List StreamEvent)
            (us : List PriceUpdate),
          queue.length + us.length ≤ eventChanCap →
          sendEvents uuid now k queue us = queue ++ wrapEvents uuid now k us)
      ∧ (∀ (uuid : Nat → String) (k : Nat) (queue : List StreamEvent)
            (us : List PriceUpdate),
          eventChanCap ≤ queue.length →
          sendEvents uuid now k queue us = queue)
      ∧ ∀ (uuid : Nat → String) (us : List PriceUpdate) (k : Nat),
          (wrapEvents uuid now k us).map StreamEvent.data = us := by
  refine ⟨?_, ?_, fun c q t => ⟨rfl, rfl, rfl, rfl, rfl⟩,
    fun uuid k queue us h => sendEvents_of_room uuid now us k queue h,
    fun uuid k queue us h => sendEvents_full uuid now us k queue h,
    fun uuid us k => (wrapEvents_data uuid now us k).1⟩
  · induction coins generalizing cache with
    | nil => simp [streamTick, fetchedRecords]
    | cons coin rest ih =>
        simp only [streamTick, fetchedRecords]
        cases (getSingleCrypto source now cache coin).result with
        | error e => exact ih _
        | ok crypto => simp [ih]
  · induction coins generalizing cache with
    | nil => simp [streamTick, fetchedRecords]
    | cons coin rest ih =>
        simp only [streamTick, fetchedRecords]
        cases (getSingleCrypto source now cache coin).result with
        | error e => exact ih _
        | ok crypto => simp [ih]

/-- Witness for the amended C9 at concrete inputs: an empty channel takes
the one event of a one-update tick verbatim, and a saturated channel drops
it. -/
theorem streamTick_emission_witness :
    (([] : List StreamEvent).length
          + [mkUpdate (convertResponse witnessResponse 7) 0 7].length
        ≤ eventChanCap
      ∧ sendEvents tickUuid 7 0 []
            [mkUpdate (convertResponse witnessResponse 7) 0 7]
          = [] ++ wrapEvents tickUuid 7 0
              [mkUpdate (convertResponse witnessResponse 7) 0 7])
    ∧ (eventChanCap ≤ fullEventQueue.length
      ∧ sendEvents tickUuid 7 0 fullEventQueue
            [mkUpdate (convertResponse witnessResponse 7) 0 7]
          = fullEventQueue) :=
  ⟨⟨by simp [eventChanCap],
      (streamTick_emission okSource 7 (fun _ => 0) (fun _ => none)
          ["bitcoin"]).2.2.2.1 tickUuid 0 []
        [mkUpdate (convertResponse witnessResponse 7) 0 7]
        (by simp [eventChanCap])⟩,
    ⟨by simp [fullEventQueue, eventChanCap],
      (streamTick_emission okSource 7 (fun _ => 0) (fun _ => none)
          ["bitcoin"]).2.2.2.2.1 tickUuid 0 fullEventQueue
        [mkUpdate (convertResponse witnessResponse 7) 0 7]
        (by simp [fullEventQueue, eventChanCap])⟩⟩

/-! ### Admission-gate claims (C1)

`GetBulkCrypto` has no semaphore: its task program contains no `acquire`
instruction, and six tasks can be in flight at once. The bound claimed for
the bulk fetch actually belongs to `GetPortfolioRealtime`, whose program
acquires one of 5 slots before the fetch and releases it by `defer`. -/

/-- A task state is well-formed for a program when the executed and
remaining instructions concatenate to that program. -/
def TaskWF (prog : List GateOp) (t : TaskSt) : Prop := t.done ++ t.rem = prog

/-- A pool is well-formed when every task is. -/
def PoolWF (prog : List GateOp) (ts : List TaskSt) : Prop :=
  ∀ t ∈ ts, TaskWF prog t

/-- Writing back the value an index already holds changes nothing. -/
lemma set_of_getElem {α : Type _} :
    ∀ (l : List α) (i : Nat) (a : α), l[i]? = some a → l.set i a = l
  | [], _, _, h => by simp at h
  | _ :: _, 0, _, h => by simp_all
  | x :: xs, i + 1, a, h => by
      simp only [List.getElem?_cons_succ] at h
      simp [List.set_cons_succ, set_of_getElem xs i a h]

/-- Replacing one element raises a `countP` by at most one. -/
lemma countP_set_le_succ {α : Type _} (p : α → Bool) :
    ∀ (l : List α) (i : Nat) (v : α),
      (l.set i v).countP p ≤ l.countP p + 1
  | [], _, _ => by simp
  | x :: xs, 0, v => by
      simp only [List.set_cons_zero, List.countP_cons]
      by_cases hv : p v <;> by_cases hx : p x <;> (simp [hv, hx]; try omega)
  | x :: xs, i + 1, v => by
      simp only [List.set_cons_succ, List.countP_cons]
      have := countP_set_le_succ p xs i v
      omega

/-- Replacing an element by one that satisfies `p` no more often than it did
cannot raise a `countP`. -/
lemma countP_set_le_of_imp {α : Type _} (p : α → Bool) :
    ∀ (l : List α) (i : Nat) (t v : α), l[i]? = some t →
      (p v = true → p t = true) → (l.set i v).countP p ≤ l.countP p
  | [], _, _, _, h, _ => by simp at h
  | x :: xs, 0, t, v, h, himp => by
      simp only [List.getElem?_cons_zero, Option.some.injEq] at h
      subst h
      simp only [List.set_cons_zero, List.countP_cons]
      by_cases hv : p v
      · simp [hv, himp hv]
      · by_cases hx : p x <;> (simp [hv, hx]; try omega)
  | x :: xs, i + 1, t, v, h, himp => by
      simp only [List.getElem?_cons_succ] at h
      simp only [List.set_cons_succ, List.countP_cons]
      have := countP_set_le_of_imp p xs i t v h himp
      omega

/-- In a well-formed `GetPortfolioRealtime` task, a fetch in flight implies a
held semaphore slot: `callStart` sits strictly between `acquire` and
`release` in the worker body. -/
lemma inFlight_imp_holdsSlot {t : TaskSt} (h : TaskWF realtimeProg t) :
    inFlight t = true → holdsSlot t = true := by
  obtain ⟨ds, rem⟩ := t
  unfold TaskWF realtimeProg at h
  simp only at h
  rcases ds with _ | ⟨a, _ | ⟨b, _ | ⟨c, _ | ⟨d, _ | ⟨e, tl⟩⟩⟩⟩⟩ <;>
    simp_all [inFlight, holdsSlot]

/-- Unfolding `step` when the picked index exists. -/
lemma step_eq_some {limit : Nat} {ts : List TaskSt} {i : Nat} {t : TaskSt}
    (h : ts[i]? = some t) :
    step limit ts i = ts.set i (stepTask limit ts t) := by
  unfold step
  rw [h]

/-- One scheduler step preserves pool well-formedness and the semaphore
bound `semCount ≤ limit` for the `GetPortfolioRealtime` program. -/
lemma step_preserves (limit : Nat) (ts : List TaskSt) (i : Nat)
    (hwf : PoolWF realtimeProg ts) (hsem : semCount ts ≤ limit) :
    PoolWF realtimeProg (step limit ts i)
      ∧ semCount (step limit ts i) ≤ limit := by
  cases hget : ts[i]? with
  | none =>
      have hstep : step limit ts i = ts := by
        unfold step
        rw [hget]
      rw [hstep]
      exact ⟨hwf, hsem⟩
  | some t =>
      rw [step_eq_some hget]
      have htwf : TaskWF realtimeProg t := hwf t (List.getElem?_mem hget)
      cases hrem : t.rem with
      | nil =>
          have hid : stepTask limit ts t = t := by simp [stepTask, hrem]
          rw [hid, set_of_getElem ts i t hget]
          exact ⟨hwf, hsem⟩
      | cons op rest =>
          by_cases hblock : op = GateOp.acquire ∧ limit ≤ semCount ts
          · have hid : stepTask limit ts t = t := by
              simp [stepTask, hrem, hblock]
            rw [hid, set_of_getElem ts i t hget]
            exact ⟨hwf, hsem⟩
          · have hstep : stepTask limit ts t = ⟨t.done ++ [op], rest⟩ := by
              simp [stepTask, hrem, hblock]
            rw [hstep]
            constructor
            · intro x hx
              rcases List.mem_or_eq_of_mem_set hx with hx | rfl
              · exact hwf x hx
              · show (t.done ++ [op]) ++ rest = realtimeProg
                rw [List.append_assoc, List.singleton_append, ← hrem]
                exact htwf
            · by_cases hacq : op = GateOp.acquire
              · have hlt : semCount ts < limit := by
                  rcases Nat.lt_or_ge (semCount ts) limit with h | h
                  · exact h
                  · exact absurd ⟨hacq, h⟩ hblock
                have hle := countP_set_le_succ holdsSlot ts i ⟨t.done ++ [op], rest⟩
                unfold semCount at hlt hsem ⊢
                omega
              · refine le_trans (countP_set_le_of_imp holdsSlot ts i t
                  ⟨t.done ++ [op], rest⟩ hget ?_) hsem
                intro hv
                simp only [holdsSlot, decide_eq_true_eq, List.mem_append,
                  List.mem_singleton] at hv ⊢
                rcases hv with ⟨h1, h2⟩
                refine ⟨?_, fun hr => h2 (Or.inl hr)⟩
                rcases h1 with h1 | h1
                · exact h1
                · exact absurd h1.symm hacq

/-- Running any schedule preserves the invariant. -/
lemma run_preserves (limit : Nat) (sched : List Nat) :
    ∀ ts, PoolWF realtimeProg ts → semCount ts ≤ limit →
      PoolWF realtimeProg (run limit ts sched)
        ∧ semCount (run limit ts sched) ≤ limit := by
  induction sched with
  | nil => exact fun ts h1 h2 => ⟨h1, h2⟩
  | cons i rest ih =>
      intro ts h1 h2
      obtain ⟨h1s, h2s⟩ := step_preserves limit ts i h1 h2
      exact ih _ h1s h2s

/-- The initial pool is well-formed with no slot held. -/
lemma initTasks_inv (prog : List GateOp) (n : Nat) :
    PoolWF prog (initTasks prog n) ∧ semCount (initTasks prog n) = 0 := by
  constructor
  · intro t ht
    rw [initTasks, List.mem_replicate] at ht
    rw [ht.2]
    simp [TaskWF]
  · unfold semCount initTasks
    rw [List.countP_eq_zero]
    intro t ht
    rw [List.mem_replicate] at ht
    rw [ht.2]
    simp [holdsSlot]

/-- C1 counterexample: `GetBulkCrypto`'s task program contains no `acquire`
at all, and with six coins the schedule that starts every fetch first drives
six fetches in flight simultaneously — the bound of 5 claimed for the bulk
fetch fails, i.e. the claim's universally-quantified form is false for
`GetBulkCrypto`. -/
theorem getBulkCrypto_no_gate_counterexample :
    bulkProg.contains GateOp.acquire = false
      ∧ inFlightCount (run 5 (initTasks bulkProg 6) [0, 1, 2, 3, 4, 5]) = 6
      ∧ ¬ ∀ sched : List Nat,
          inFlightCount (run 5 (initTasks bulkProg 6) sched) ≤ 5 := by
  refine ⟨by decide, by decide, fun h => ?_⟩
  have h6 := h [0, 1, 2, 3, 4, 5]
  rw [show inFlightCount (run 5 (initTasks bulkProg 6) [0, 1, 2, 3, 4, 5]) = 6
    from by decide] at h6
  omega

/-- C1 (amended): the counting admission gate lives in
`GetPortfolioRealtime`: for any number of worker tasks and any
interleaving, at most 5 `GetSingleCrypto` calls are in flight
simultaneously — each worker acquires one of the 5 semaphore slots before
its fetch and releases it unconditionally afterwards (`defer`), so fetches
in flight never exceed held slots, which never exceed 5. -/
theorem getPortfolioRealtime_inflight_bounded (n : Nat) (sched : List Nat) :
    inFlightCount (run 5 (initTasks realtimeProg n) sched) ≤ 5 := by
  obtain ⟨hwf0, hsem0⟩ := initTasks_inv realtimeProg n
  obtain ⟨hwf, hsem⟩ := run_preserves 5 sched _ hwf0 (by omega)
  refine le_trans ?_ hsem
  exact List.countP_mono_left fun t ht hin =>
    inFlight_imp_holdsSlot (hwf t ht) hin

end CryptoService
